import Mathlib

/-!
Verification development for the getwtxt-ng twtxt registry.

The definitions below are a shallow embedding of the registry core:
the feed parser (`registry/twtxt.go`), the entry indexer (the mention and
tag regular expressions of `registry/tweets.go`), the primary store
operations (`registry/tweets.go`, the users file) and the URL validator
(`common.IsValidURL`).  SQL tables are embedded as Lean lists of row
structures; a transactional operation returns `Except`, where an `error`
result models a rolled-back transaction (no state change).  Go `time.Time`
values are embedded by the only two observations the embedded code makes
of them: `UnixNano` and `IsZero`.
-/

namespace Getwtxt

/-! ### Character classes -/

/-- Go `unicode.IsSpace`: the Unicode White_Space code points
('\t' to '\r', space, NEL, NBSP and the higher spacing code points).
Used by `strings.TrimSpace` and `strings.Fields`. -/
def isGoSpace (c : Char) : Bool :=
  (9 ≤ c.toNat && c.toNat ≤ 13) || c.toNat = 32 || c.toNat = 133 || c.toNat = 160 ||
  c.toNat = 5760 || (8192 ≤ c.toNat && c.toNat ≤ 8202) || c.toNat = 8232 ||
  c.toNat = 8233 || c.toNat = 8239 || c.toNat = 8287 || c.toNat = 12288

/-- Character class `\s` of Go `regexp` (RE2): `[\t\n\f\r ]`. -/
def isRegexSpace (c : Char) : Bool :=
  c.toNat = 9 || c.toNat = 10 || c.toNat = 12 || c.toNat = 13 || c.toNat = 32

/-- Character class `\w` of Go `regexp` (RE2): `[0-9A-Za-z_]`. -/
def isWordChar (c : Char) : Bool :=
  (48 ≤ c.toNat && c.toNat ≤ 57) || (65 ≤ c.toNat && c.toNat ≤ 90) ||
  (97 ≤ c.toNat && c.toNat ≤ 122) || c.toNat = 95

/-- ASCII decimal digit. -/
def isDigit (c : Char) : Bool := 48 ≤ c.toNat && c.toNat ≤ 57

/-! ### Go string helpers -/

/-- Go `strings.TrimSpace` on a character list: drop leading and trailing
white space. -/
def trimSpaceList (l : List Char) : List Char :=
  ((l.dropWhile isGoSpace).reverse.dropWhile isGoSpace).reverse

/-- Go `strings.TrimSpace`. -/
def trimSpace (s : String) : String := String.mk (trimSpaceList s.toList)

/-- Worker for `strings.Fields`, with a fuel argument (any fuel at least
the length of the list gives the true result; each step consumes at least
one character). -/
def fieldsAux : Nat → List Char → List (List Char)
  | 0, _ => []
  | _ + 1, [] => []
  | n + 1, c :: cs =>
    if isGoSpace c then fieldsAux n cs
    else (c :: cs.takeWhile (fun d => !isGoSpace d)) ::
      fieldsAux n (cs.dropWhile (fun d => !isGoSpace d))

/-- Go `strings.Fields`: split around each maximal run of white space. -/
def fieldsGo (s : String) : List String :=
  (fieldsAux s.toList.length s.toList).map String.mk

/-- Character-list suffix test (Go `strings.HasSuffix`). -/
def strEndsWith (s suffix : String) : Bool :=
  List.isSuffixOf suffix.toList s.toList

/-- Character-list prefix test. -/
def listStartsWithCs : List Char → List Char → Bool
  | [], _ => true
  | _ :: _, [] => false
  | a :: as, b :: bs => a == b && listStartsWithCs as bs

/-- Character-list infix test. -/
def listHasInfix (sub : List Char) : List Char → Bool
  | [] => sub.isEmpty
  | c :: cs => listStartsWithCs sub (c :: cs) || listHasInfix sub cs

/-- Split on every occurrence of a separator character, keeping empty
segments (Go `strings.Split` with a one-character separator). -/
def splitOnChar (sep : Char) : List Char → List (List Char)
  | [] => [[]]
  | c :: cs =>
    let r := splitOnChar sep cs
    if c = sep then [] :: r
    else
      match r with
      | [] => [[c]]
      | h :: t => (c :: h) :: t

/-- String form of `splitOnChar`. -/
def splitStringOnChar (sep : Char) (s : String) : List String :=
  (splitOnChar sep s.toList).map String.mk

/-- ASCII lower-casing (Go lower-cases URL schemes). -/
def toLowerAscii (s : String) : String :=
  String.mk (s.toList.map (fun c =>
    if 65 ≤ c.toNat && c.toNat ≤ 90 then Char.ofNat (c.toNat + 32) else c))

/-! ### The entry indexer: mention and tag regular expressions

`RegexTweetContainsMentions` is the Go regular expression
`@<(\w+)\s(\S+)>` and `RegexTweetContainsTags` is `#(\w+)`
(`registry/tweets.go` lines 59-63).  `MatchString` and
`FindAllStringSubmatch` are embedded through a single anchored matcher per
pattern plus a left-to-right scan, exactly the RE2 leftmost,
non-overlapping semantics. -/

/-- Decomposition of one element of a tweet's `Mentions` list:
a nickname and a URL, the two capture groups of the mention pattern. -/
structure Mention where
  nickname : String
  url : String
  deriving Repr, DecidableEq

/-- Index of the last occurrence of `c` in `l`, if any. -/
def lastIdxOf (c : Char) : List Char → Option Nat
  | [] => none
  | d :: ds =>
    match lastIdxOf c ds with
    | some k => some (k + 1)
    | none => if d = c then some 0 else none

/-- Anchored match of `@<(\w+)\s(\S+)>` at the head of `l`.  On success,
returns the two capture groups and the unconsumed remainder.  `\w+` is
greedy and disjoint from `\s`, so its maximal run is the only candidate;
`(\S+)>` consumes up to the last `>` inside the maximal non-space run. -/
def mentionMatchCore (l : List Char) : Option (String × String × List Char) :=
  match l with
  | '@' :: '<' :: rest =>
    let w := rest.takeWhile isWordChar
    if w.isEmpty then none
    else
      match rest.dropWhile isWordChar with
      | [] => none
      | s :: rest3 =>
        if isRegexSpace s then
          let r := rest3.takeWhile (fun d => !isRegexSpace d)
          match lastIdxOf '>' r with
          | none => none
          | some k =>
            if k = 0 then none
            else some (String.mk w, String.mk (r.take k), rest3.drop (k + 1))
        else none
  | _ => none

/-- Anchored match of `#(\w+)` at the head of `l`. -/
def tagMatchCore (l : List Char) : Option (String × List Char) :=
  match l with
  | '#' :: rest =>
    let w := rest.takeWhile isWordChar
    if w.isEmpty then none else some (String.mk w, rest.dropWhile isWordChar)
  | _ => none

/-- Fueled scan for `RegexTweetContainsMentions.MatchString`: true when the
pattern matches at some position. -/
def mentionsMatchAux : Nat → List Char → Bool
  | 0, _ => false
  | _ + 1, [] => false
  | n + 1, c :: cs => (mentionMatchCore (c :: cs)).isSome || mentionsMatchAux n cs

/-- Fueled scan for `RegexTweetContainsMentions.FindAllStringSubmatch`:
collect the successive leftmost non-overlapping matches. -/
def extractMentionsAux : Nat → List Char → List Mention
  | 0, _ => []
  | _ + 1, [] => []
  | n + 1, c :: cs =>
    match mentionMatchCore (c :: cs) with
    | some (nick, url, rest) => { nickname := nick, url := url } :: extractMentionsAux n rest
    | none => extractMentionsAux n cs

/-- Fueled scan for `RegexTweetContainsTags.MatchString`. -/
def tagsMatchAux : Nat → List Char → Bool
  | 0, _ => false
  | _ + 1, [] => false
  | n + 1, c :: cs => (tagMatchCore (c :: cs)).isSome || tagsMatchAux n cs

/-- Fueled scan for `RegexTweetContainsTags.FindAllStringSubmatch`. -/
def extractTagsAux : Nat → List Char → List String
  | 0, _ => []
  | _ + 1, [] => []
  | n + 1, c :: cs =>
    match tagMatchCore (c :: cs) with
    | some (tag, rest) => tag :: extractTagsAux n rest
    | none => extractTagsAux n cs

/-- `RegexTweetContainsMentions.MatchString` (write-time mention flag). -/
def mentionsMatch (s : String) : Bool := mentionsMatchAux s.toList.length s.toList

/-- Read-time mention extraction
(`RegexTweetContainsMentions.FindAllStringSubmatch` mapped onto `Mention`,
as in the row-scanning loops of `registry/tweets.go`). -/
def extractMentions (s : String) : List Mention :=
  extractMentionsAux s.toList.length s.toList

/-- `RegexTweetContainsTags.MatchString` (write-time tag flag). -/
def tagsMatch (s : String) : Bool := tagsMatchAux s.toList.length s.toList

/-- Read-time tag extraction. -/
def extractTags (s : String) : List String := extractTagsAux s.toList.length s.toList

theorem mentionsMatchAux_iff (n : Nat) :
    ∀ l : List Char, (mentionsMatchAux n l = true ↔ extractMentionsAux n l ≠ []) := by
  induction n with
  | zero => intro l; simp [mentionsMatchAux, extractMentionsAux]
  | succ n ih =>
    intro l
    cases l with
    | nil => simp [mentionsMatchAux, extractMentionsAux]
    | cons c cs =>
      cases hm : mentionMatchCore (c :: cs) with
      | some v =>
        obtain ⟨nick, url, rest⟩ := v
        simp [mentionsMatchAux, extractMentionsAux, hm]
      | none =>
        simp [mentionsMatchAux, extractMentionsAux, hm, ih cs]

theorem tagsMatchAux_iff (n : Nat) :
    ∀ l : List Char, (tagsMatchAux n l = true ↔ extractTagsAux n l ≠ []) := by
  induction n with
  | zero => intro l; simp [tagsMatchAux, extractTagsAux]
  | succ n ih =>
    intro l
    cases l with
    | nil => simp [tagsMatchAux, extractTagsAux]
    | cons c cs =>
      cases hm : tagMatchCore (c :: cs) with
      | some v =>
        obtain ⟨tag, rest⟩ := v
        simp [tagsMatchAux, extractTagsAux, hm]
      | none =>
        simp [tagsMatchAux, extractTagsAux, hm, ih cs]

theorem mentionsMatch_iff (s : String) : mentionsMatch s = true ↔ extractMentions s ≠ [] :=
  mentionsMatchAux_iff s.toList.length s.toList

theorem tagsMatch_iff (s : String) : tagsMatch s = true ↔ extractTags s ≠ [] :=
  tagsMatchAux_iff s.toList.length s.toList

/-! ### Time

Go `time.Time` is embedded by the two observations the registry core makes
of a time value: `UnixNano` (the integer persisted in the `dt` column) and
`IsZero` (the guard of `ToggleTweetHiddenStatus`). -/

/-- Embedded `time.Time`. -/
structure GoTime where
  unixNano : Int
  isZero : Bool
  deriving Repr, DecidableEq

/-- Decimal value of a digit list. -/
def digitsToNat (l : List Char) : Nat := l.foldl (fun a c => a * 10 + (c.toNat - 48)) 0

/-- Gregorian leap-year rule. -/
def isLeapYear (y : Nat) : Bool := (y % 4 == 0 && y % 100 != 0) || y % 400 == 0

/-- Number of days in a month of the proleptic Gregorian calendar,
the day-range check of Go `time.Parse`. -/
def daysInMonth (y m : Nat) : Nat :=
  if m = 2 then (if isLeapYear y then 29 else 28)
  else if m = 4 ∨ m = 6 ∨ m = 9 ∨ m = 11 then 30
  else 31

/-- Days from the civil date `y-m-d` to the Unix epoch (standard
era-based conversion; all intermediate divisions act on non-negative
values for the four-digit years accepted by the RFC 3339 parser). -/
def daysFromCivil (y m d : Int) : Int :=
  let y2 := if m ≤ 2 then y - 1 else y
  let era := (if 0 ≤ y2 then y2 else y2 - 399) / 400
  let yoe := y2 - era * 400
  let mp := (m + 9) % 12
  let doy := (153 * mp + 2) / 5 + d - 1
  let doe := yoe * 365 + yoe / 4 - yoe / 100 + doy
  era * 146097 + doe - 719468

/-- `UnixNano` of the zero `time.Time` instant (January 1, year 1, UTC),
as an unbounded integer. -/
def goZeroTimeNano : Int := daysFromCivil 1 1 1 * 86400 * 1000000000

/-- The zero `time.Time`. -/
def goZeroTime : GoTime := { unixNano := goZeroTimeNano, isZero := true }

/-- A `time.Time` built from a nanosecond instant. -/
def mkGoTime (n : Int) : GoTime := { unixNano := n, isZero := decide (n = goZeroTimeNano) }

/-- Fractional-second part of Go `time.Parse`: an optional `.digits` run,
accepted only under the `RFC3339Nano` layout, truncated to nanosecond
resolution.  Returns the nanosecond value and the unconsumed remainder. -/
def parseFrac (allowFrac : Bool) (cs : List Char) : Option (Int × List Char) :=
  match cs with
  | '.' :: rest =>
    if !allowFrac then none
    else
      let ds := rest.takeWhile isDigit
      if ds.isEmpty then none
      else
        let take9 := ds.take 9
        some ((digitsToNat take9 * 10 ^ (9 - take9.length) : Nat), rest.dropWhile isDigit)
  | _ => some (0, cs)

/-- Offset part of the RFC 3339 layouts: `Z` or `±hh:mm`, as seconds. -/
def parseOffset (cs : List Char) : Option Int :=
  match cs with
  | ['Z'] => some 0
  | ['+', o1, o2, ':', o3, o4] =>
    if [o1, o2, o3, o4].all isDigit then
      let oh := digitsToNat [o1, o2]
      let om := digitsToNat [o3, o4]
      if oh ≤ 23 ∧ om ≤ 59 then some ((oh : Int) * 3600 + om * 60) else none
    else none
  | ['-', o1, o2, ':', o3, o4] =>
    if [o1, o2, o3, o4].all isDigit then
      let oh := digitsToNat [o1, o2]
      let om := digitsToNat [o3, o4]
      if oh ≤ 23 ∧ om ≤ 59 then some (-((oh : Int) * 3600 + om * 60)) else none
    else none
  | _ => none

/-- Go `time.Parse` with the `RFC3339` layout (`allowFrac = false`) or the
`RFC3339Nano` layout (`allowFrac = true`). -/
def timeParseRFC3339Go (allowFrac : Bool) (s : String) : Option GoTime :=
  match s.toList with
  | y1 :: y2 :: y3 :: y4 :: '-' :: m1 :: m2 :: '-' :: d1 :: d2 :: 'T' ::
      h1 :: h2 :: ':' :: mi1 :: mi2 :: ':' :: s1 :: s2 :: rest =>
    if [y1, y2, y3, y4, m1, m2, d1, d2, h1, h2, mi1, mi2, s1, s2].all isDigit then
      let y := digitsToNat [y1, y2, y3, y4]
      let mo := digitsToNat [m1, m2]
      let dd := digitsToNat [d1, d2]
      let hh := digitsToNat [h1, h2]
      let mm := digitsToNat [mi1, mi2]
      let ss := digitsToNat [s1, s2]
      if 1 ≤ mo ∧ mo ≤ 12 ∧ 1 ≤ dd ∧ dd ≤ daysInMonth y mo ∧ hh ≤ 23 ∧ mm ≤ 59 ∧ ss ≤ 59 then
        match parseFrac allowFrac rest with
        | none => none
        | some (frac, rest2) =>
          match parseOffset rest2 with
          | none => none
          | some off =>
            let secs : Int :=
              daysFromCivil (y : Int) (mo : Int) (dd : Int) * 86400 +
                (hh : Int) * 3600 + (mm : Int) * 60 + (ss : Int) - off
            some (mkGoTime (secs * 1000000000 + frac))
      else none
    else none
  | _ => none

/-- `time.Parse(time.RFC3339, s)`. -/
def timeParseRFC3339 (s : String) : Option GoTime := timeParseRFC3339Go false s

/-- `time.Parse(time.RFC3339Nano, s)`. -/
def timeParseRFC3339Nano (s : String) : Option GoTime := timeParseRFC3339Go true s

/-! ### The tweet data model and the primary store (`registry/tweets.go`) -/

/-- The Go `Tweet` struct.  `hidden` embeds `TweetVisibilityStatus`
(0 = `StatusVisible`, 1 = `StatusHidden`). -/
structure Tweet where
  id : String := ""
  userID : String := ""
  nickname : String := ""
  url : String := ""
  dateTime : GoTime := goZeroTime
  body : String := ""
  mentions : List Mention := []
  tags : List String := []
  hidden : Nat := 0
  deriving Repr, DecidableEq

/-- One row of the `tweets` table
(`user_id, dt, body, contains_mentions, contains_tags, hidden`). -/
structure TweetRow where
  userId : String
  dt : Int
  body : String
  containsMentions : Bool
  containsTags : Bool
  hidden : Nat
  deriving Repr, DecidableEq

/-- The row `InsertTweets` builds for one tweet: `dt` is
`t.DateTime.UnixNano()`, the two flags are recomputed from `t.Body` with
the mention and tag regular expressions, and `hidden` takes the column
default 0.  The caller-supplied `Mentions`, `Tags` and `Hidden` fields are
not consulted. -/
def mkTweetRow (t : Tweet) : TweetRow :=
  { userId := t.userID
    dt := t.dateTime.unixNano
    body := t.body
    containsMentions := mentionsMatch t.body
    containsTags := tagsMatch t.body
    hidden := 0 }

/-- Membership test for the `UNIQUE (user_id, dt, body)` constraint. -/
def hasTweetKey (tbl : List TweetRow) (uid : String) (dt : Int) (body : String) : Bool :=
  tbl.any (fun r => decide (r.userId = uid ∧ r.dt = dt ∧ r.body = body))

/-- One `INSERT OR IGNORE INTO tweets` statement execution: the
`ON CONFLICT IGNORE` clause of the uniqueness constraint drops the row
when the key is already present. -/
def insertTweetRow (tbl : List TweetRow) (r : TweetRow) : List TweetRow :=
  if hasTweetKey tbl r.userId r.dt r.body then tbl else tbl ++ [r]

/-- `DB.InsertTweets`: rejects an empty collection, otherwise runs every
per-tweet insert inside one transaction and commits. -/
def InsertTweets (tbl : List TweetRow) (tweets : List Tweet) :
    Except String (List TweetRow) :=
  if tweets = [] then Except.error "invalid tweets provided"
  else Except.ok (tweets.foldl (fun acc t => insertTweetRow acc (mkTweetRow t)) tbl)

/-- `DB.ToggleTweetHiddenStatus`: guard on empty user id or zero
timestamp, then `UPDATE tweets SET hidden = ? WHERE user_id = ? AND dt = ?`
in one transaction.  An `error` result models the rolled-back transaction:
no row is written. -/
def ToggleTweetHiddenStatus (tbl : List TweetRow) (userID : String)
    (timestamp : GoTime) (status : Nat) : Except String (List TweetRow) :=
  if userID = "" ∨ timestamp.isZero = true then
    Except.error "invalid user ID or tweet timestamp provided"
  else
    Except.ok (tbl.map (fun r =>
      if r.userId = userID ∧ r.dt = timestamp.unixNano then { r with hidden := status } else r))

/-! ### The feed fetcher parsing loop (`registry/twtxt.go` lines 74-102)

`FetchTwtxtParse` embeds what `FetchTwtxt` does to the body of a
`200 text/plain` response.  A Go runtime panic (out-of-range slice index)
is a distinguished outcome, not a skipped line. -/

/-- Outcome of the per-line block of the loop. -/
inductive LineStep where
  | skip
  | panicOut
  | made (t : Tweet)
  deriving Repr, DecidableEq

/-- One iteration of the parsing loop: trim the line, drop comments and
blanks, split with `strings.Fields`, read `tweetHalves[1]` as the body and
`tweetHalves[0]` as the timestamp (`RFC3339Nano` when the timestamp field
contains a dot, `RFC3339` otherwise), and skip the line when the timestamp
does not parse.  The `tweetHalves[1]` access is unguarded in the source:
on a kept line with fewer than two fields it is an out-of-range index,
a Go runtime panic. -/
def parseTwtxtLine (userID : String) (rawLine : String) : LineStep :=
  let e := trimSpace rawLine
  if listStartsWithCs ['#'] e.toList = true ∨ e = "" then LineStep.skip
  else
    match fieldsGo e with
    | [] => LineStep.panicOut
    | [_] => LineStep.panicOut
    | ts :: body :: _ =>
      let dtOpt := if ts.toList.contains '.' then timeParseRFC3339Nano ts
        else timeParseRFC3339 ts
      match dtOpt with
      | none => LineStep.skip
      | some dt => LineStep.made { userID := userID, body := body, dateTime := dt }

/-- Result of running the whole loop. -/
inductive ParseOutcome where
  | panicked
  | ok (tweets : List Tweet)
  deriving Repr, DecidableEq

/-- The loop over the split lines, in file order. -/
def fetchTwtxtLines (userID : String) : List String → ParseOutcome
  | [] => ParseOutcome.ok []
  | line :: rest =>
    match parseTwtxtLine userID line with
    | LineStep.panicOut => ParseOutcome.panicked
    | LineStep.skip => fetchTwtxtLines userID rest
    | LineStep.made t =>
      match fetchTwtxtLines userID rest with
      | ParseOutcome.panicked => ParseOutcome.panicked
      | ParseOutcome.ok ts => ParseOutcome.ok (t :: ts)

/-- `FetchTwtxt`, from the point where a `200 text/plain` body has been
read: split on newlines and run the parsing loop. -/
def FetchTwtxtParse (userID body : String) : ParseOutcome :=
  fetchTwtxtLines userID (splitStringOnChar '\n' body)

/-- The bodies of the parsed tweets, `none` on a panic. -/
def parsedBodies (o : ParseOutcome) : Option (List String) :=
  match o with
  | ParseOutcome.panicked => none
  | ParseOutcome.ok ts => some (ts.map (fun t => t.body))

/-! ### URL validation (`common.IsValidURL`)

Go `net/url.Parse` is embedded to the two observations the validator
makes: `Scheme` and `Host`.  `net.ParseIP(host).IsLoopback()` is embedded
as one predicate: a nil `net.IP` (any string that is not an IP literal,
in particular a `host:port` pair) answers false to `IsLoopback`. -/

/-- The two fields of a parsed URL read by the embedded code. -/
structure GoURL where
  scheme : String
  host : String
  deriving Repr, DecidableEq

/-- ASCII letter. -/
def isAlphaChar (c : Char) : Bool :=
  (65 ≤ c.toNat && c.toNat ≤ 90) || (97 ≤ c.toNat && c.toNat ≤ 122)

/-- Characters allowed after the first one in a URL scheme. -/
def isSchemeTailChar (c : Char) : Bool :=
  isAlphaChar c || isDigit c || c = '+' || c = '-' || c = '.'

/-- Scheme extraction of `url.Parse`: a leading `letter (letter|digit|+|-|.)*`
run followed by a colon.  Anything else leaves the input without a scheme. -/
def schemeSplit (cs : List Char) : List Char × List Char :=
  let pre := cs.takeWhile (fun c => decide (c ≠ ':'))
  if pre.length = cs.length then ([], cs)
  else
    match pre with
    | [] => ([], cs)
    | c :: rest =>
      if isAlphaChar c && rest.all isSchemeTailChar then (c :: rest, cs.drop (pre.length + 1))
      else ([], cs)

/-- The part of an authority after the last `@` (userinfo removed). -/
def afterLastAt (l : List Char) : List Char :=
  match lastIdxOf '@' l with
  | none => l
  | some k => l.drop (k + 1)

/-- Embedded `url.Parse`, restricted to the `Scheme` and `Host` fields.
The `Host` of a URL with an authority is the substring after `//` up to
the next `/`, `?` or `#`, with any userinfo stripped; it keeps a port and
any square brackets, exactly as Go reports it.  Inputs with ASCII control
characters fail to parse. -/
def goURLParse (s : String) : Option GoURL :=
  if s.toList.any (fun c => decide (c.toNat < 32 ∨ c.toNat = 127)) then none
  else
    let (schemeCs, rest) := schemeSplit s.toList
    match rest with
    | '/' :: '/' :: rest2 =>
      let auth := rest2.takeWhile (fun c => decide (c ≠ '/' ∧ c ≠ '?' ∧ c ≠ '#'))
      some { scheme := toLowerAscii (String.mk schemeCs), host := String.mk (afterLastAt auth) }
    | _ => some { scheme := toLowerAscii (String.mk schemeCs), host := "" }

/-- One dotted-quad octet accepted by `net.ParseIP`: one to three digits,
no leading zero, value at most 255. -/
def parseIPv4Octet (cs : List Char) : Option Nat :=
  if cs ≠ [] ∧ cs.length ≤ 3 ∧ cs.all isDigit = true ∧ (cs.length = 1 ∨ cs.headD '0' ≠ '0') then
    if digitsToNat cs ≤ 255 then some (digitsToNat cs) else none
  else none

/-- `net.ParseIP` on a dotted-quad IPv4 literal. -/
def parseIPv4 (s : String) : Option (Nat × Nat × Nat × Nat) :=
  match splitStringOnChar '.' s with
  | [a, b, c, d] =>
    match parseIPv4Octet a.toList, parseIPv4Octet b.toList,
        parseIPv4Octet c.toList, parseIPv4Octet d.toList with
    | some x, some y, some z, some w => some (x, y, z, w)
    | _, _, _, _ => none
  | _ => none

/-- Textual forms of the IPv6 loopback address accepted by `net.ParseIP`. -/
def isIPv6LoopbackText (s : String) : Bool :=
  s == "::1" || s == "0:0:0:0:0:0:0:1" ||
  s == "0000:0000:0000:0000:0000:0000:0000:0001"

/-- `net.ParseIP(host).IsLoopback()`: true exactly when the host string is
an IPv4 literal in `127.0.0.0/8` or an IPv6 loopback literal.  Any string
that is not an IP literal — a name, or a `host:port` or `[v6]:port` pair —
gives a nil `net.IP`, whose `IsLoopback` is false. -/
def hostIsLoopbackIP (host : String) : Bool :=
  match parseIPv4 host with
  | some (a, _, _, _) => a == 127
  | none => isIPv6LoopbackText host

/-- `common.IsValidURL`: non-blank, parseable, host neither the literal
`localhost` nor a loopback IP literal, scheme http or https. -/
def IsValidURL (destURL : String) : Bool :=
  if trimSpace destURL = "" then false
  else
    match goURLParse destURL with
    | none => false
    | some u =>
      if u.host = "localhost" then false
      else if hostIsLoopbackIP u.host then false
      else if u.scheme ≠ "https" ∧ u.scheme ≠ "http" then false
      else true

/-- The URL gate at the top of `FetchTwtxt` (`registry/twtxt.go` lines
37-39): an invalid URL fails before any request is created or sent. -/
def FetchTwtxtURLCheck (twtxtURL : String) : Except String Unit :=
  if !IsValidURL twtxtURL then Except.error ("invalid URL provided: " ++ twtxtURL)
  else Except.ok ()

/-! ### The users store (the registry users file) -/

/-- One row of the `users` table. -/
structure UserRow where
  id : String
  url : String
  nick : String
  passcodeHash : String
  dtAdded : Int
  lastSync : Int
  deriving Repr, DecidableEq

/-- The Go `User` struct. -/
structure UserG where
  id : String := ""
  url : String := ""
  nick : String := ""
  passcode : String := ""
  passcodeHash : String := ""
  dtAdded : GoTime := goZeroTime
  lastSync : GoTime := goZeroTime
  deriving Repr, DecidableEq

/-- `ErrIncompleteUserInfo`. -/
def errIncompleteUserInfo : String :=
  "incomplete user info supplied: missing URL and/or nickname and/or passcode"

/-- `ErrNoUsersProvided`. -/
def errNoUsersProvided : String := "no user(s) provided"

/-- `ErrUserURLIsNotTwtxtFile`. -/
def errUserURLIsNotTwtxtFile : String := "user URL does not point to twtxt.txt"

/-- `RegexIsAlpha.MatchString`, the pattern `\w+`: true when the string
contains at least one word character. -/
def RegexIsAlphaMatch (s : String) : Bool := s.toList.any isWordChar

/-- `RegexURLIsTwtxtFile.MatchString`, the pattern
`/twtxt\.txt$|/twtxt$|\.txt$`. -/
def RegexURLIsTwtxtFileMatch (s : String) : Bool :=
  strEndsWith s "/twtxt.txt" || strEndsWith s "/twtxt" || strEndsWith s ".txt"

/-- `User.GeneratePasscode`: draws ten random bytes and stores their hex
form and its bcrypt hash on the user.  Randomness is outside the
embedding; the fixed value below keeps the one property the callers rely
on, a non-empty passcode hash. -/
def generatePasscode (u : UserG) : UserG :=
  { u with passcode := "00112233445566778899",
           passcodeHash := "bcrypt-hash-of-random-passcode" }

/-- `DB.InsertUser` (single registration): validates presence of URL,
nickname and passcode hash and the nickname charset, requires a parseable
URL with a scheme and a feed-shaped path, then inserts one row (AUTOINCREMENT
id embedded as the next table index; `last_sync` inserted as 0).  A
duplicate URL violates the `UNIQUE` column constraint and aborts.  The
wall-clock substitution for a zero `DateTimeAdded` is outside the
embedding: the given `dtAdded` instant is stored. -/
def InsertUser (tbl : List UserRow) (u : Option UserG) :
    Except String (List UserRow × UserG) :=
  match u with
  | none => Except.error errIncompleteUserInfo
  | some u =>
    if u.url = "" ∨ u.nick = "" ∨ u.passcodeHash.length < 1 ∨ RegexIsAlphaMatch u.nick = false then
      Except.error errIncompleteUserInfo
    else
      match goURLParse u.url with
      | none => Except.error errIncompleteUserInfo
      | some p =>
        if p.scheme = "" then Except.error errIncompleteUserInfo
        else if RegexURLIsTwtxtFileMatch u.url = false then
          Except.error errUserURLIsNotTwtxtFile
        else if tbl.any (fun r => r.url == u.url) then
          Except.error "UNIQUE constraint failed: users.url"
        else
          let newID := toString (tbl.length + 1)
          Except.ok
            (tbl ++ [{ id := newID, url := u.url, nick := u.nick,
                       passcodeHash := u.passcodeHash,
                       dtAdded := u.dtAdded.unixNano, lastSync := 0 }],
             { u with id := newID })

/-- Loop of `DB.InsertUsers`: one transaction over the whole batch.  A
candidate with a missing URL, missing nickname or invalid nickname aborts
the batch with `ErrIncompleteUserInfo`; a candidate whose URL has no
scheme or no feed-shaped path is skipped with a log line; a URL-uniqueness
violation aborts the batch. -/
def insertUsersGo : List UserRow → List UserG → List UserG →
    Except String (List UserRow × List UserG)
  | tbl, acc, [] => Except.ok (tbl, acc.reverse)
  | tbl, acc, u0 :: rest =>
    let u := generatePasscode u0
    if u.url = "" ∨ u.nick = "" ∨ u.passcodeHash.length < 1 ∨ RegexIsAlphaMatch u.nick = false then
      Except.error errIncompleteUserInfo
    else
      match goURLParse u.url with
      | none => insertUsersGo tbl acc rest
      | some p =>
        if p.scheme = "" then insertUsersGo tbl acc rest
        else if RegexURLIsTwtxtFileMatch u.url = false then insertUsersGo tbl acc rest
        else if tbl.any (fun r => r.url == u.url) then
          Except.error "UNIQUE constraint failed: users.url"
        else
          let newID := toString (tbl.length + 1)
          insertUsersGo
            (tbl ++ [{ id := newID, url := u.url, nick := u.nick,
                       passcodeHash := u.passcodeHash,
                       dtAdded := u.dtAdded.unixNano, lastSync := 0 }])
            ({ u with id := newID } :: acc) rest

/-- `DB.InsertUsers` (bulk registration). -/
def InsertUsers (tbl : List UserRow) (users : List UserG) :
    Except String (List UserRow × List UserG) :=
  insertUsersGo tbl [] users

/-- The whole durable state: the `users` and `tweets` tables. -/
structure RegistryDB where
  users : List UserRow
  tweets : List TweetRow
  deriving Repr, DecidableEq

/-- `DB.DeleteUser`: guard on a nil user or empty id, then one transaction
deleting the user's tweet rows (returning the affected-row count) and the
user row. -/
def DeleteUser (db : RegistryDB) (u : Option UserG) : Except String (Nat × RegistryDB) :=
  match u with
  | none => Except.error errNoUsersProvided
  | some u =>
    if u.id = "" then Except.error errNoUsersProvided
    else
      let removedCount := (db.tweets.filter (fun r => r.userId == u.id)).length
      Except.ok (removedCount,
        { users := db.users.filter (fun r => !(r.id == u.id))
          tweets := db.tweets.filter (fun r => !(r.userId == u.id)) })

/-! ### Pagination

Every paginated operation shares the same window logic: decrement the
1-indexed page, clamp `perPage` to the configured bounds, clamp the page
to 0, and take the rows whose `ROW_NUMBER` (1-indexed over the descending
order) lies in `(page*perPage, page*perPage + perPage]`. -/

/-- The two sequential `perPage` clamps. -/
def clampPerPage (perPage minPP maxPP : Int) : Int :=
  let p := if perPage < minPP then minPP else perPage
  if maxPP < p then maxPP else p

/-- Page normalization: `page--` then clamp below at 0. -/
def normPage (page : Int) : Int := if page - 1 < 0 then 0 else page - 1

/-- The shared row-number window over an ordered row set. -/
def paginate {α : Type} (rows : List α) (page perPage minPP maxPP : Int) : List α :=
  let pp := clampPerPage perPage minPP maxPP
  let pg := normPage page
  (rows.drop (pg * pp).toNat).take pp.toNat

/-- The `ORDER BY dt DESC` ordering of the tweet queries (ties broken by
the engine; the embedding fixes a stable insertion sort). -/
def sortTweetsByDtDesc (rows : List TweetRow) : List TweetRow :=
  List.insertionSort (fun a b => b.dt ≤ a.dt) rows

/-- `DB.GetTweets`: one page of the visibility-filtered tweets in
descending `dt` order. -/
def GetTweets (tbl : List TweetRow) (page perPage minPP maxPP : Int) (vis : Nat) :
    List TweetRow :=
  paginate (sortTweetsByDtDesc (tbl.filter (fun r => r.hidden == vis))) page perPage minPP maxPP

/-- `DB.SearchTweets`: the FTS5 `MATCH` predicate of the engine is taken
as a parameter; the window logic is shared. -/
def SearchTweets (tbl : List TweetRow) (page perPage minPP maxPP : Int) (vis : Nat)
    (bodyMatches : String → Bool) : List TweetRow :=
  paginate (sortTweetsByDtDesc (tbl.filter (fun r => r.hidden == vis && bodyMatches r.body)))
    page perPage minPP maxPP

/-- `DB.GetTags`: rows flagged `contains_tags`. -/
def GetTags (tbl : List TweetRow) (page perPage minPP maxPP : Int) (vis : Nat) :
    List TweetRow :=
  paginate (sortTweetsByDtDesc (tbl.filter (fun r => r.hidden == vis && r.containsTags)))
    page perPage minPP maxPP

/-- `DB.SearchTags`. -/
def SearchTags (tbl : List TweetRow) (page perPage minPP maxPP : Int) (vis : Nat)
    (bodyMatches : String → Bool) : List TweetRow :=
  paginate
    (sortTweetsByDtDesc
      (tbl.filter (fun r => r.hidden == vis && r.containsTags && bodyMatches r.body)))
    page perPage minPP maxPP

/-- `DB.GetMentions`: rows flagged `contains_mentions`. -/
def GetMentions (tbl : List TweetRow) (page perPage minPP maxPP : Int) (vis : Nat) :
    List TweetRow :=
  paginate (sortTweetsByDtDesc (tbl.filter (fun r => r.hidden == vis && r.containsMentions)))
    page perPage minPP maxPP

/-- `DB.SearchMentions`. -/
def SearchMentions (tbl : List TweetRow) (page perPage minPP maxPP : Int) (vis : Nat)
    (bodyMatches : String → Bool) : List TweetRow :=
  paginate
    (sortTweetsByDtDesc
      (tbl.filter (fun r => r.hidden == vis && r.containsMentions && bodyMatches r.body)))
    page perPage minPP maxPP

/-- The `ORDER BY dt_added DESC` ordering of the user queries. -/
def sortUsersByDtDesc (rows : List UserRow) : List UserRow :=
  List.insertionSort (fun a b => b.dtAdded ≤ a.dtAdded) rows

/-- `DB.GetUsers`: one page of users in descending registration order. -/
def GetUsers (tbl : List UserRow) (page perPage minPP maxPP : Int) : List UserRow :=
  paginate (sortUsersByDtDesc tbl) page perPage minPP maxPP

/-- Substring test for the `LIKE '%term%'` predicate (ASCII
case-insensitive, as SQLite `LIKE`). -/
def strContainsSub (s sub : String) : Bool :=
  listHasInfix (toLowerAscii sub).toList (toLowerAscii s).toList

/-- `DB.SearchUsers`: substring match over nickname or URL. -/
def SearchUsers (tbl : List UserRow) (page perPage minPP maxPP : Int)
    (term : String) : List UserRow :=
  paginate
    (sortUsersByDtDesc
      (tbl.filter (fun r => strContainsSub r.nick term || strContainsSub r.url term)))
    page perPage minPP maxPP

/-! ### Small projection helpers used in statements -/

/-- The committed table of a tweet-store transaction (empty on error). -/
def exceptListD (e : Except String (List TweetRow)) : List TweetRow :=
  match e with
  | Except.ok l => l
  | Except.error _ => []

/-- The deleted-entry count of a `DeleteUser` result. -/
def deleteCount (e : Except String (Nat × RegistryDB)) : Option Nat :=
  match e with
  | Except.ok (n, _) => some n
  | Except.error _ => none

/-- Success test on an `Except`. -/
def exceptIsOk {ε α : Type} (e : Except ε α) : Bool :=
  match e with
  | Except.ok _ => true
  | Except.error _ => false

/-- The URLs of the committed users table of a bulk insert (`none` when
the batch aborted). -/
def insertedURLs (e : Except String (List UserRow × List UserG)) : Option (List String) :=
  match e with
  | Except.ok (tbl, _) => some (tbl.map (fun r => r.url))
  | Except.error _ => none

/-! ### Lemmas about `InsertTweets` -/

theorem hasTweetKey_insertTweetRow_self (tbl : List TweetRow) (r : TweetRow) :
    hasTweetKey (insertTweetRow tbl r) r.userId r.dt r.body = true := by
  unfold insertTweetRow
  by_cases h : hasTweetKey tbl r.userId r.dt r.body
  · rw [if_pos h]; exact h
  · simp only [h, if_false, Bool.false_eq_true]
    unfold hasTweetKey
    simp

theorem hasTweetKey_insertTweetRow_mono (tbl : List TweetRow) (r : TweetRow)
    (u : String) (d : Int) (b : String) (h : hasTweetKey tbl u d b = true) :
    hasTweetKey (insertTweetRow tbl r) u d b = true := by
  unfold insertTweetRow
  by_cases hk : hasTweetKey tbl r.userId r.dt r.body
  · rw [if_pos hk]; exact h
  · simp only [hk, if_false, Bool.false_eq_true]
    unfold hasTweetKey at h ⊢
    simp only [List.any_append, Bool.or_eq_true]
    exact Or.inl h

theorem hasTweetKey_foldl_mono (E : List Tweet) :
    ∀ (tbl : List TweetRow) (u : String) (d : Int) (b : String),
      hasTweetKey tbl u d b = true →
      hasTweetKey (E.foldl (fun acc t => insertTweetRow acc (mkTweetRow t)) tbl) u d b = true := by
  induction E with
  | nil => intro tbl u d b h; simpa using h
  | cons t ts ih =>
    intro tbl u d b h
    exact ih _ u d b (hasTweetKey_insertTweetRow_mono tbl (mkTweetRow t) u d b h)

theorem hasTweetKey_foldl_all (E : List Tweet) :
    ∀ (tbl : List TweetRow) (t : Tweet), t ∈ E →
      hasTweetKey (E.foldl (fun acc t => insertTweetRow acc (mkTweetRow t)) tbl)
        t.userID t.dateTime.unixNano t.body = true := by
  induction E with
  | nil => intro tbl t h; cases h
  | cons t0 ts ih =>
    intro tbl t h
    rcases List.mem_cons.mp h with h0 | hmem
    · subst h0
      simp only [List.foldl_cons]
      exact hasTweetKey_foldl_mono ts _ _ _ _ (hasTweetKey_insertTweetRow_self tbl (mkTweetRow t))
    · exact ih _ t hmem

theorem foldl_insert_noop (E : List Tweet) :
    ∀ tbl : List TweetRow,
      (∀ t ∈ E, hasTweetKey tbl t.userID t.dateTime.unixNano t.body = true) →
      E.foldl (fun acc t => insertTweetRow acc (mkTweetRow t)) tbl = tbl := by
  induction E with
  | nil => intro tbl _; rfl
  | cons t0 ts ih =>
    intro tbl h
    have h0 : hasTweetKey tbl t0.userID t0.dateTime.unixNano t0.body = true :=
      h t0 (List.mem_cons_self t0 ts)
    have hstep : insertTweetRow tbl (mkTweetRow t0) = tbl := by
      unfold insertTweetRow
      have h0' : hasTweetKey tbl (mkTweetRow t0).userId (mkTweetRow t0).dt
          (mkTweetRow t0).body = true := h0
      rw [if_pos h0']
    simp only [List.foldl_cons, hstep]
    exact ih tbl (fun t ht => h t (List.mem_cons_of_mem t0 ht))

/-- C1.  Idempotent ingestion: when `InsertTweets` commits a non-empty
entry collection `E` producing the table `T1`, running `InsertTweets`
again with the same `E` commits `T1` unchanged — the duplicate-ignore
semantics of the `(user_id, dt, body)` uniqueness constraint make
re-ingestion a no-op, so the stored row count is unchanged after the
second call. -/
theorem InsertTweets_idempotent (tbl T1 : List TweetRow) (E : List Tweet)
    (hne : E ≠ []) (h1 : InsertTweets tbl E = Except.ok T1) :
    InsertTweets T1 E = Except.ok T1 := by
  unfold InsertTweets at h1 ⊢
  rw [if_neg hne] at h1 ⊢
  have hT1 : E.foldl (fun acc t => insertTweetRow acc (mkTweetRow t)) tbl = T1 :=
    (Except.ok.injEq _ _).mp h1
  have hall : ∀ t ∈ E, hasTweetKey T1 t.userID t.dateTime.unixNano t.body = true := by
    intro t ht
    have := hasTweetKey_foldl_all E tbl t ht
    rwa [hT1] at this
  rw [foldl_insert_noop E T1 hall]

/-- C1 witness. -/
theorem InsertTweets_idempotent_witness :
    InsertTweets
      [{ userId := "1", dt := 5, body := "hello #a", containsMentions := false,
         containsTags := true, hidden := 0 }]
      [{ userID := "1", dateTime := mkGoTime 5, body := "hello #a" }] =
      Except.ok
        [{ userId := "1", dt := 5, body := "hello #a", containsMentions := false,
           containsTags := true, hidden := 0 }] :=
  InsertTweets_idempotent []
    [{ userId := "1", dt := 5, body := "hello #a", containsMentions := false,
       containsTags := true, hidden := 0 }]
    [{ userID := "1", dateTime := mkGoTime 5, body := "hello #a" }]
    (by decide) rfl

/-- C4.  Mention/tag flag consistency: for every entry, the
`contains_mentions` value `InsertTweets` stores (computed in `mkTweetRow`
by `RegexTweetContainsMentions.MatchString` on the body) is true exactly
when the read-time mention extraction of the body is non-empty, and
likewise for tags; and the flags depend only on the body text, never on
the caller-supplied `Mentions`, `Tags` or `Hidden` fields. -/
theorem mention_tag_flag_consistency (t : Tweet) :
    ((mkTweetRow t).containsMentions = true ↔ extractMentions t.body ≠ []) ∧
    ((mkTweetRow t).containsTags = true ↔ extractTags t.body ≠ []) ∧
    (∀ t' : Tweet, t'.body = t.body →
      (mkTweetRow t').containsMentions = (mkTweetRow t).containsMentions ∧
      (mkTweetRow t').containsTags = (mkTweetRow t).containsTags) := by
  refine ⟨mentionsMatch_iff t.body, tagsMatch_iff t.body, ?_⟩
  intro t' h
  constructor
  · show mentionsMatch t'.body = mentionsMatch t.body
    rw [h]
  · show tagsMatch t'.body = tagsMatch t.body
    rw [h]

/-- C4 witness. -/
theorem mention_tag_flag_consistency_witness :
    (mkTweetRow { body := "hi @<bob https://b.example/t.txt> ok" }).containsMentions = true ∧
    (mkTweetRow { body := "hi @<bob https://b.example/t.txt> ok" }).containsTags = false ∧
    (mkTweetRow { body := "hi @<bob https://b.example/t.txt> ok",
                  mentions := [], tags := ["stale"], hidden := 1 }).containsMentions =
      (mkTweetRow { body := "hi @<bob https://b.example/t.txt> ok" }).containsMentions := by
  refine ⟨?_, by decide, ?_⟩
  · exact (mention_tag_flag_consistency { body := "hi @<bob https://b.example/t.txt> ok" }).1.mpr
      (by decide)
  · exact ((mention_tag_flag_consistency { body := "hi @<bob https://b.example/t.txt> ok" }).2.2
      { body := "hi @<bob https://b.example/t.txt> ok",
        mentions := [], tags := ["stale"], hidden := 1 } rfl).1

/-- C9.  Visibility toggle contract: with an empty account id or a
zero-value timestamp the call fails with the invalid-input error and the
transaction commits nothing; otherwise it succeeds, preserves the table
length, and rewrites exactly the rows whose `(user_id, dt)` matches — in
particular, when a single row matches, only that row's `hidden` column
takes the new state. -/
theorem ToggleTweetHiddenStatus_contract (tbl : List TweetRow) (userID : String)
    (ts : GoTime) (status : Nat) :
    ((userID = "" ∨ ts.isZero = true) →
      ToggleTweetHiddenStatus tbl userID ts status =
        Except.error "invalid user ID or tweet timestamp provided") ∧
    (userID ≠ "" → ts.isZero = false →
      exceptIsOk (ToggleTweetHiddenStatus tbl userID ts status) = true ∧
      (exceptListD (ToggleTweetHiddenStatus tbl userID ts status)).length = tbl.length ∧
      (∀ i : Nat, ∀ h : i < tbl.length,
        (exceptListD (ToggleTweetHiddenStatus tbl userID ts status))[i]? =
          some (if (tbl.get ⟨i, h⟩).userId = userID ∧ (tbl.get ⟨i, h⟩).dt = ts.unixNano
            then { tbl.get ⟨i, h⟩ with hidden := status } else tbl.get ⟨i, h⟩))) := by
  constructor
  · intro h
    unfold ToggleTweetHiddenStatus
    rw [if_pos h]
  · intro h1 h2
    have hcond : ¬(userID = "" ∨ ts.isZero = true) := by
      intro hc
      rcases hc with hc | hc
      · exact h1 hc
      · rw [h2] at hc; cases hc
    unfold ToggleTweetHiddenStatus
    rw [if_neg hcond]
    refine ⟨rfl, by simp [exceptListD], ?_⟩
    intro i h
    simp only [exceptListD, List.getElem?_map]
    rw [List.getElem?_eq_getElem h]
    simp [List.get_eq_getElem]

/-- C9 witness. -/
theorem ToggleTweetHiddenStatus_contract_witness :
    ToggleTweetHiddenStatus
      [{ userId := "1", dt := 5, body := "a", containsMentions := false,
         containsTags := false, hidden := 0 }] "" goZeroTime 1 =
      Except.error "invalid user ID or tweet timestamp provided" ∧
    (exceptListD (ToggleTweetHiddenStatus
      [{ userId := "1", dt := 5, body := "a", containsMentions := false,
         containsTags := false, hidden := 0 }] "1" (mkGoTime 5) 1))[0]? =
      some { userId := "1", dt := 5, body := "a", containsMentions := false,
             containsTags := false, hidden := 1 } := by
  constructor
  · exact (ToggleTweetHiddenStatus_contract _ "" goZeroTime 1).1 (Or.inl rfl)
  · have h := ((ToggleTweetHiddenStatus_contract
      [{ userId := "1", dt := 5, body := "a", containsMentions := false,
         containsTags := false, hidden := 0 }] "1" (mkGoTime 5) 1).2
      (by decide) (by decide)).2.2 0 (by decide)
    simpa using h

/-! ### Lemmas about `DeleteUser` -/

theorem filter_length_partition {α : Type} (l : List α) (p : α → Bool) :
    (l.filter p).length + (l.filter (fun a => !(p a))).length = l.length := by
  induction l with
  | nil => rfl
  | cons x xs ih =>
    by_cases h : p x = true <;> simp [List.filter_cons, h] <;> omega

/-- C6.  Cascading delete: for an account with a non-empty id owning `N`
stored entry rows, `DeleteUser` succeeds in one transaction, returns `N`
as the deleted-entry count, removes the account row and exactly those `N`
entry rows, and a subsequent entry listing filtered to that account is
empty. -/
theorem DeleteUser_cascades (db : RegistryDB) (u : UserG) (h : u.id ≠ "") :
    ∃ db', DeleteUser db (some u) =
        Except.ok ((db.tweets.filter (fun r => r.userId == u.id)).length, db') ∧
      db'.tweets.filter (fun r => r.userId == u.id) = [] ∧
      db'.users.filter (fun r => r.id == u.id) = [] ∧
      db'.tweets.length + (db.tweets.filter (fun r => r.userId == u.id)).length
        = db.tweets.length ∧
      (∀ r ∈ db.tweets, (r.userId == u.id) = false → r ∈ db'.tweets) ∧
      (∀ r ∈ db'.tweets, r ∈ db.tweets) := by
  refine ⟨{ users := db.users.filter (fun r => !(r.id == u.id)),
            tweets := db.tweets.filter (fun r => !(r.userId == u.id)) }, ?_, ?_, ?_, ?_, ?_, ?_⟩
  · simp [DeleteUser, h]
  · simp [List.filter_filter]
  · simp [List.filter_filter]
  · have := filter_length_partition db.tweets (fun r => r.userId == u.id)
    simpa using by omega
  · intro r hr hne
    simp only [List.mem_filter]
    exact ⟨hr, by simp [hne]⟩
  · intro r hr
    exact (List.mem_filter.mp hr).1

/-- C6 witness. -/
theorem DeleteUser_cascades_witness :
    deleteCount (DeleteUser
      { users := [{ id := "1", url := "https://a.example/twtxt.txt", nick := "n",
                    passcodeHash := "h", dtAdded := 0, lastSync := 0 }],
        tweets := [{ userId := "1", dt := 5, body := "a", containsMentions := false,
                     containsTags := false, hidden := 0 },
                   { userId := "2", dt := 6, body := "b", containsMentions := false,
                     containsTags := false, hidden := 0 },
                   { userId := "1", dt := 7, body := "c", containsMentions := false,
                     containsTags := false, hidden := 0 }] }
      (some { id := "1" })) = some 2 := by
  obtain ⟨db', h1, -, -, -, -, -⟩ := DeleteUser_cascades
    { users := [{ id := "1", url := "https://a.example/twtxt.txt", nick := "n",
                  passcodeHash := "h", dtAdded := 0, lastSync := 0 }],
      tweets := [{ userId := "1", dt := 5, body := "a", containsMentions := false,
                   containsTags := false, hidden := 0 },
                 { userId := "2", dt := 6, body := "b", containsMentions := false,
                   containsTags := false, hidden := 0 },
                 { userId := "1", dt := 7, body := "c", containsMentions := false,
                   containsTags := false, hidden := 0 }] }
    { id := "1" } (by decide)
  rw [h1]
  rfl

/-- C7.  URL rejection: the validator rejects the empty URL, a non-http
scheme, the literal `localhost` host and a loopback IPv4 host, so the
fetch gate fails before any request for each of them; the well-formed
feed URL passes validation, its fetch gate succeeds, and a registration
with that URL, a valid nickname and a passcode hash is accepted by the
single-user insert. -/
theorem url_rejection :
    IsValidURL "" = false ∧
    IsValidURL "gopher://x" = false ∧
    IsValidURL "http://localhost" = false ∧
    IsValidURL "http://127.0.0.1" = false ∧
    IsValidURL "https://example.com/twtxt.txt" = true ∧
    FetchTwtxtURLCheck "" = Except.error "invalid URL provided: " ∧
    FetchTwtxtURLCheck "gopher://x" = Except.error "invalid URL provided: gopher://x" ∧
    FetchTwtxtURLCheck "http://localhost" =
      Except.error "invalid URL provided: http://localhost" ∧
    FetchTwtxtURLCheck "http://127.0.0.1" =
      Except.error "invalid URL provided: http://127.0.0.1" ∧
    FetchTwtxtURLCheck "https://example.com/twtxt.txt" = Except.ok () ∧
    exceptIsOk (InsertUser []
      (some { url := "https://example.com/twtxt.txt", nick := "foo", passcodeHash := "h" }))
      = true := by
  refine ⟨?_, ?_, ?_, ?_, ?_, ?_, ?_, ?_, ?_, ?_, ?_⟩ <;> rfl

/-- C10.  A loopback address carrying an explicit port passes
`IsValidURL`: `url.Parse` reports the host as the combined `host:port`
string (brackets included for IPv6), `net.ParseIP` never parses such a
string, a nil IP is not loopback, and so the fetch gate accepts the URL
and proceeds to the request. -/
theorem loopback_with_port_accepted :
    IsValidURL "http://127.0.0.1:8080/twtxt.txt" = true ∧
    IsValidURL "http://[::1]:8080/twtxt.txt" = true ∧
    (goURLParse "http://127.0.0.1:8080/twtxt.txt").map GoURL.host = some "127.0.0.1:8080" ∧
    (goURLParse "http://[::1]:8080/twtxt.txt").map GoURL.host = some "[::1]:8080" ∧
    parseIPv4 "127.0.0.1:8080" = none ∧
    hostIsLoopbackIP "127.0.0.1:8080" = false ∧
    hostIsLoopbackIP "[::1]:8080" = false ∧
    hostIsLoopbackIP "127.0.0.1" = true ∧
    FetchTwtxtURLCheck "http://127.0.0.1:8080/twtxt.txt" = Except.ok () ∧
    FetchTwtxtURLCheck "http://[::1]:8080/twtxt.txt" = Except.ok () := by
  refine ⟨?_, ?_, ?_, ?_, ?_, ?_, ?_, ?_, ?_, ?_⟩ <;> rfl

/-- Modelled from the spec: the body field the specification describes
for a kept feed line — the entire remainder of the trimmed line after the
first run of whitespace. -/
def specRemainderAfterTimestamp (line : String) : String :=
  String.mk
    (((trimSpaceList line.toList).dropWhile (fun c => !isGoSpace c)).dropWhile isGoSpace)

/-- C2.  The parsing loop splits a kept line with `strings.Fields` and
stores only `tweetHalves[1]`, the second whitespace-delimited field, as
the body: on the line `2023-01-01T00:00:00Z hello there` (timestamp
parses, body should be `hello there`) the stored body is `hello`,
dropping everything after the second field, contrary to the specified
split into a timestamp and the whole remainder. -/
theorem fetch_body_truncated_to_second_field :
    fieldsGo "2023-01-01T00:00:00Z hello there" =
      ["2023-01-01T00:00:00Z", "hello", "there"] ∧
    parsedBodies (FetchTwtxtParse "1" "2023-01-01T00:00:00Z hello there") =
      some ["hello"] ∧
    specRemainderAfterTimestamp "2023-01-01T00:00:00Z hello there" = "hello there" ∧
    (("hello" : String) == "hello there") = false := by
  refine ⟨?_, ?_, ?_, ?_⟩
  · rfl
  · rfl
  · rfl
  · decide

/-- C5.  The parsing loop is not total: a kept line with no whitespace at
all yields a single-element `strings.Fields` result, and the unguarded
`tweetHalves[1]` access is an out-of-range index — a Go runtime panic
that aborts the whole parse instead of skipping the line, even when other
lines of the document are well formed. -/
theorem fetch_panics_on_whitespace_free_line :
    fieldsGo "justonetoken" = ["justonetoken"] ∧
    parseTwtxtLine "1" "justonetoken" = LineStep.panicOut ∧
    FetchTwtxtParse "1" "justonetoken" = ParseOutcome.panicked ∧
    FetchTwtxtParse "1" "# comment\n2023-01-01T00:00:00Z ok\njustonetoken" =
      ParseOutcome.panicked := by
  refine ⟨?_, ?_, ?_, ?_⟩ <;> rfl

/-! ### Lemmas about pagination -/

/-- Ceiling division on naturals. -/
def ceilDivNat (a b : Nat) : Nat := (a + b - 1) / b

theorem le_ceilDivNat_mul (a b : Nat) (hb : 0 < b) : a ≤ ceilDivNat a b * b := by
  unfold ceilDivNat
  have h := Nat.lt_div_mul_add hb (a := a + b - 1)
  omega

theorem join_take_pages {α : Type} (P : Nat) (l : List α) :
    ∀ k : Nat,
      ((List.range k).map (fun i => (l.drop (i * P)).take P)).flatten = l.take (k * P) := by
  intro k
  induction k with
  | zero => simp
  | succ k ih =>
    rw [List.range_succ, List.map_append, List.flatten_append]
    simp only [List.map_cons, List.map_nil, List.flatten_cons, List.flatten_nil,
      List.append_nil]
    rw [ih, Nat.succ_mul, List.take_add]

theorem join_pages_full {α : Type} (P : Nat) (hP : 0 < P) (l : List α) :
    ((List.range (ceilDivNat l.length P)).map (fun i => (l.drop (i * P)).take P)).flatten
      = l := by
  rw [join_take_pages]
  exact List.take_of_length_le (le_ceilDivNat_mul l.length P hP)

theorem paginate_page_eq {α : Type} (l : List α) (minPP maxPP P : Int) (i : Nat)
    (h1 : minPP ≤ P) (h2 : P ≤ maxPP) (hP0 : 0 ≤ P) :
    paginate l ((i : Int) + 1) P minPP maxPP = (l.drop (i * P.toNat)).take P.toNat := by
  simp only [paginate, clampPerPage, normPage]
  rw [if_neg (not_lt.mpr h1), if_neg (not_lt.mpr h2)]
  have hpg : (if ((i : Int) + 1) - 1 < 0 then (0 : Int) else ((i : Int) + 1) - 1)
      = (i : Int) := by
    rw [if_neg (by omega)]
    omega
  rw [hpg]
  have hmul : (((i : Int)) * P).toNat = i * P.toNat := by
    rw [show P = (P.toNat : Int) from (Int.toNat_of_nonneg hP0).symm]
    rw [← Nat.cast_mul, Int.toNat_natCast, Int.toNat_natCast]
  rw [hmul]

/-- C3.  The pagination contract shared by every paginated operation
(`GetTweets`, `GetUsers`, `SearchTweets`, `GetTags`, `GetMentions` and the
search variants all apply `paginate` to their ordered datasets): pages
at most 0 behave as page 1, `perPage` is clamped into
`[EntriesPerPageMin, EntriesPerPageMax]`, and for any fixed dataset and
any page size in that range, concatenating pages `1..ceil(total/P)` gives
back exactly the full result set — no duplicate, no gap — shown both for
the generic window and for `GetTweets`, whose result set is the
visibility-filtered table in descending timestamp order (a permutation
of the filtered rows, sorted by descending `dt`). -/
theorem pagination_contract {α : Type} (l : List α) (tbl : List TweetRow) (vis : Nat)
    (minPP maxPP P : Int) (hmin : 0 < minPP) (hminmax : minPP ≤ maxPP)
    (hP1 : minPP ≤ P) (hP2 : P ≤ maxPP) :
    (∀ page perPage, page ≤ 0 →
      paginate l page perPage minPP maxPP = paginate l 1 perPage minPP maxPP) ∧
    (∀ perPage, minPP ≤ clampPerPage perPage minPP maxPP ∧
      clampPerPage perPage minPP maxPP ≤ maxPP) ∧
    (((List.range (ceilDivNat l.length P.toNat)).map
        (fun i : Nat => paginate l ((i : Int) + 1) P minPP maxPP)).flatten = l) ∧
    (((List.range (ceilDivNat
          (sortTweetsByDtDesc (tbl.filter (fun r => r.hidden == vis))).length P.toNat)).map
        (fun i : Nat => GetTweets tbl ((i : Int) + 1) P minPP maxPP vis)).flatten
      = sortTweetsByDtDesc (tbl.filter (fun r => r.hidden == vis))) ∧
    List.Sorted (fun a b => b.dt ≤ a.dt)
      (sortTweetsByDtDesc (tbl.filter (fun r => r.hidden == vis))) ∧
    List.Perm (sortTweetsByDtDesc (tbl.filter (fun r => r.hidden == vis)))
      (tbl.filter (fun r => r.hidden == vis)) := by
  have hP0 : (0 : Int) < P := lt_of_lt_of_le hmin hP1
  have hPn : 0 < P.toNat := by omega
  have hjoin : ∀ (β : Type) (d : List β),
      ((List.range (ceilDivNat d.length P.toNat)).map
        (fun i : Nat => paginate d ((i : Int) + 1) P minPP maxPP)).flatten = d := by
    intro β d
    have hpages : (fun i : Nat => paginate d ((i : Int) + 1) P minPP maxPP) =
        (fun i : Nat => (d.drop (i * P.toNat)).take P.toNat) :=
      funext (fun i => paginate_page_eq d minPP maxPP P i hP1 hP2 (le_of_lt hP0))
    rw [hpages]
    exact join_pages_full P.toNat hPn d
  refine ⟨?_, ?_, hjoin α l, ?_, ?_, ?_⟩
  · intro page perPage hpage
    simp only [paginate, normPage]
    rw [if_pos (by omega), if_neg (by norm_num)]
    norm_num
  · intro perPage
    simp only [clampPerPage]
    constructor <;> (split_ifs <;> omega)
  · simp only [GetTweets]
    exact hjoin _ _
  · haveI : IsTotal TweetRow (fun a b => b.dt ≤ a.dt) := ⟨fun a b => le_total b.dt a.dt⟩
    haveI : IsTrans TweetRow (fun a b => b.dt ≤ a.dt) :=
      ⟨fun _ _ _ hab hbc => le_trans hbc hab⟩
    exact List.sorted_insertionSort _ _
  · exact List.perm_insertionSort _ _

/-- C3 witness. -/
theorem pagination_contract_witness :
    ((List.range (ceilDivNat 3 1)).map
      (fun i : Nat => paginate [10, 20, 30] ((i : Int) + 1) 1 1 2)).flatten = [10, 20, 30] := by
  have h := (pagination_contract ([10, 20, 30] : List Nat) [] 0 1 2 1
    (by decide) (by decide) (by decide) (by decide)).2.2.1
  simpa using h

/-! ### Lemmas about `InsertUsers` -/

/-- A bulk candidate that survives the two skip checks: its URL parses
with a non-empty scheme and has a feed-shaped path. -/
def validBulkCandidate (u : UserG) : Bool :=
  match goURLParse u.url with
  | none => false
  | some p => decide (p.scheme ≠ "") && RegexURLIsTwtxtFileMatch u.url

/-- C8 counterexample: a batch holding one perfectly valid candidate and
one candidate with an invalid URL shape (the empty URL) aborts entirely
with `ErrIncompleteUserInfo`; the valid candidate is not inserted. -/
theorem InsertUsers_batch_abort_counterexample :
    InsertUsers []
      [{ url := "https://a.example/twtxt.txt", nick := "good" }, { url := "", nick := "bad" }]
      = Except.error errIncompleteUserInfo ∧
    insertedURLs (InsertUsers []
      [{ url := "https://a.example/twtxt.txt", nick := "good" }, { url := "", nick := "bad" }])
      = none := by
  refine ⟨?_, ?_⟩ <;> rfl

theorem generatePasscode_url (u : UserG) : (generatePasscode u).url = u.url := rfl

theorem generatePasscode_nick (u : UserG) : (generatePasscode u).nick = u.nick := rfl

theorem generatePasscode_dtAdded (u : UserG) : (generatePasscode u).dtAdded = u.dtAdded := rfl

theorem generatePasscode_hash (u : UserG) :
    (generatePasscode u).passcodeHash = "bcrypt-hash-of-random-passcode" := rfl

theorem insertUsersGo_spec (cands : List UserG) :
    ∀ (tbl : List UserRow) (acc : List UserG),
      (∀ u ∈ cands, u.url ≠ "" ∧ u.nick ≠ "" ∧ RegexIsAlphaMatch u.nick = true) →
      (tbl.map (fun r => r.url) ++ cands.map (fun u => u.url)).Nodup →
      ∃ tbl' added, insertUsersGo tbl acc cands = Except.ok (tbl', added) ∧
        added.map (fun u => u.url) = acc.reverse.map (fun u => u.url) ++
          (cands.filter validBulkCandidate).map (fun u => u.url) ∧
        tbl'.map (fun r => r.url) = tbl.map (fun r => r.url) ++
          (cands.filter validBulkCandidate).map (fun u => u.url) := by
  induction cands with
  | nil =>
    intro tbl acc _ _
    exact ⟨tbl, acc.reverse, rfl, by simp, by simp⟩
  | cons u0 rest ih =>
    intro tbl acc hinfo hnodup
    obtain ⟨hu1, hu2, hu3⟩ := hinfo u0 (List.mem_cons_self u0 rest)
    have hrest : ∀ u ∈ rest, u.url ≠ "" ∧ u.nick ≠ "" ∧ RegexIsAlphaMatch u.nick = true :=
      fun u hu => hinfo u (List.mem_cons_of_mem u0 hu)
    have hnd : (tbl.map (fun r => r.url) ++ rest.map (fun u => u.url)).Nodup := by
      have h' : (tbl.map (fun r => r.url) ++
          u0.url :: rest.map (fun u => u.url)).Nodup := by simpa using hnodup
      exact h'.sublist (List.Sublist.append_left (List.sublist_cons_self _ _) _)
    have hguard : ¬(u0.url = "" ∨ u0.nick = "" ∨
        ("bcrypt-hash-of-random-passcode".length < 1) ∨
        RegexIsAlphaMatch u0.nick = false) := by
      intro h
      rcases h with h | h | h | h
      · exact hu1 h
      · exact hu2 h
      · exact absurd h (by decide)
      · rw [hu3] at h; cases h
    simp only [insertUsersGo, generatePasscode_url, generatePasscode_nick,
      generatePasscode_dtAdded, generatePasscode_hash]
    rw [if_neg hguard]
    cases hp : goURLParse u0.url with
    | none =>
      have hval : validBulkCandidate u0 = false := by simp [validBulkCandidate, hp]
      obtain ⟨tbl', added, h1, h2, h3⟩ := ih tbl acc hrest hnd
      simp only [hp]
      refine ⟨tbl', added, h1, ?_, ?_⟩
      · rw [h2]
        simp [List.filter_cons, hval]
      · rw [h3]
        simp [List.filter_cons, hval]
    | some p =>
      simp only [hp]
      by_cases hs : p.scheme = ""
      · have hval : validBulkCandidate u0 = false := by simp [validBulkCandidate, hp, hs]
        obtain ⟨tbl', added, h1, h2, h3⟩ := ih tbl acc hrest hnd
        rw [if_pos hs]
        refine ⟨tbl', added, h1, ?_, ?_⟩
        · rw [h2]
          simp [List.filter_cons, hval]
        · rw [h3]
          simp [List.filter_cons, hval]
      · rw [if_neg hs]
        by_cases hf : RegexURLIsTwtxtFileMatch u0.url = false
        · have hval : validBulkCandidate u0 = false := by
            simp [validBulkCandidate, hp, hf]
          obtain ⟨tbl', added, h1, h2, h3⟩ := ih tbl acc hrest hnd
          rw [if_pos hf]
          refine ⟨tbl', added, h1, ?_, ?_⟩
          · rw [h2]
            simp [List.filter_cons, hval]
          · rw [h3]
            simp [List.filter_cons, hval]
        · have hval : validBulkCandidate u0 = true := by
            simp only [validBulkCandidate, hp]
            simp only [Bool.not_eq_false] at hf
            simp [hs, hf]
          rw [if_neg hf]
          have hdisj := List.nodup_append.mp hnodup
          have hnotmem : u0.url ∉ tbl.map (fun r => r.url) := by
            intro hmem
            exact hdisj.2.2 hmem (by simp)
          have hany : ¬(tbl.any (fun r => r.url == u0.url) = true) := by
            intro hany
            obtain ⟨r, hr, hbeq⟩ := List.any_eq_true.mp hany
            exact hnotmem (List.mem_map.mpr ⟨r, hr, by simpa using hbeq⟩)
          rw [if_neg hany]
          have hnd2 : ((tbl ++ [({ id := toString (tbl.length + 1), url := u0.url, nick := u0.nick, passcodeHash := "bcrypt-hash-of-random-passcode", dtAdded := u0.dtAdded.unixNano, lastSync := 0 } : UserRow)]).map (fun r => r.url) ++ rest.map (fun u => u.url)).Nodup := by
            simp only [List.map_append, List.map_cons, List.map_nil]
            have heq : tbl.map (fun r => r.url) ++ [u0.url] ++ rest.map (fun u => u.url) =
                tbl.map (fun r => r.url) ++ u0.url :: rest.map (fun u => u.url) := by
              simp
            rw [heq]
            simpa using hnodup
          obtain ⟨tbl', added, h1, h2, h3⟩ := ih
            (tbl ++ [({ id := toString (tbl.length + 1), url := u0.url, nick := u0.nick, passcodeHash := "bcrypt-hash-of-random-passcode", dtAdded := u0.dtAdded.unixNano, lastSync := 0 } : UserRow)])
            ({ generatePasscode u0 with id := toString (tbl.length + 1) } :: acc) hrest hnd2
          refine ⟨tbl', added, h1, ?_, ?_⟩
          · rw [h2]
            simp [List.filter_cons, hval, generatePasscode]
          · rw [h3]
            simp [List.filter_cons, hval]

/-- C8 (amended).  Bulk registration: when every candidate carries a
non-empty URL, a non-empty word-character nickname (candidates violating
these abort the whole batch with `ErrIncompleteUserInfo`, see the
counterexample) and the URLs are fresh and pairwise distinct, the batch
commits in one transaction; every candidate whose URL has no scheme or no
feed-shaped path is skipped, and exactly the remaining candidates are
inserted and returned. -/
theorem InsertUsers_skip_semantics (tbl : List UserRow) (cands : List UserG)
    (hinfo : ∀ u ∈ cands, u.url ≠ "" ∧ u.nick ≠ "" ∧ RegexIsAlphaMatch u.nick = true)
    (hnodup : (tbl.map (fun r => r.url) ++ cands.map (fun u => u.url)).Nodup) :
    ∃ tbl' added, InsertUsers tbl cands = Except.ok (tbl', added) ∧
      added.map (fun u => u.url) = (cands.filter validBulkCandidate).map (fun u => u.url) ∧
      tbl'.map (fun r => r.url) = tbl.map (fun r => r.url) ++
        (cands.filter validBulkCandidate).map (fun u => u.url) := by
  obtain ⟨tbl', added, h1, h2, h3⟩ := insertUsersGo_spec cands tbl [] hinfo hnodup
  exact ⟨tbl', added, h1, by simpa using h2, h3⟩

/-- C8 witness. -/
theorem InsertUsers_skip_semantics_witness :
    insertedURLs (InsertUsers []
      [{ url := "https://a.example/twtxt.txt", nick := "good" },
       { url := "https://b.example/page.html", nick := "skipme" },
       { url := "https://c.example/twtxt.txt", nick := "alsogood" }]) =
      some ["https://a.example/twtxt.txt", "https://c.example/twtxt.txt"] := by
  obtain ⟨tbl', added, h1, h2, h3⟩ := InsertUsers_skip_semantics []
    [{ url := "https://a.example/twtxt.txt", nick := "good" },
     { url := "https://b.example/page.html", nick := "skipme" },
     { url := "https://c.example/twtxt.txt", nick := "alsogood" }]
    (by decide) (by decide)
  rw [h1]
  simp only [insertedURLs]
  rw [h3]
  rfl

end Getwtxt
